import Mathlib

set_option linter.unusedSectionVars false
set_option linter.unusedVariables false

/-!
# Verification of the montecarlo dice toolkit

Shallow embedding of `montecarlo/montecarlo.py`: a weighted `Die`, a `Game`
that rolls a list of dice repeatedly into an outcome table, and an `Analyzer`
computing statistics over the table.

Modelling conventions:
* Faces are values of an arbitrary type `α` with decidable equality (the
  source allows strings or numbers).
* Weights are rationals (`ℚ`), standing for Python floats; the float cast in
  `change_weight` is the identity on numeric inputs.
* The pandas `DataFrame` of a die is the association of the `faces` list with
  the parallel `weights` list; `Die.show` returns that association list.
* Randomness is an explicit stream of rationals in `[0,1)`; one draw of
  `np.random.choice(faces, p=probabilities)` is inverse-CDF selection
  (`sampleCDF`) against the cumulative probabilities.
* `np.random.choice` raises a `ValueError` when the probability vector
  contains NaN (weight sum is zero, so `weights / sum(weights)` divides by
  zero) or a negative entry, or when the face array is empty; these library
  failures are the single constructor `Err.numpyValueError`, which is distinct
  from the spec-level `Err.invalidWeight` (`InvalidWeightError`).
* Fallible operations return `Except Err`.
-/

namespace MonteCarlo

/-- Error taxonomy: the errors the source raises at the modelled call sites,
under the spec's names, plus `numpyValueError` for the generic `ValueError`
raised inside `np.random.choice` (which the source does not raise itself) and
`indexError` for Python list indexing out of range. `invalidWeight` is the
spec's `InvalidWeightError`. -/
inductive Err where
  | duplicateFace
  | unknownFace
  | invalidWeightType
  | invalidWeight
  | numpyValueError
  | indexError
  | invalidForm
  | invalidArgument
  deriving DecidableEq

deriving instance DecidableEq for Except

/-- A die: the pandas DataFrame indexed by `faces` with a `weights` column,
kept as two parallel lists. -/
structure Die (α : Type) where
  faces : List α
  weights : List ℚ
  deriving DecidableEq

variable {α : Type} [DecidableEq α]

/-- `Die.__init__`: checks that faces are pairwise distinct, then stores
weight `1.0` for every face. (The `isinstance(faces, np.ndarray)` check is a
host-language type test, absorbed by `faces` being a list here.) -/
def Die.init (faces : List α) : Except Err (Die α) :=
  if faces.Nodup then
    .ok ⟨faces, List.replicate faces.length 1⟩
  else
    .error .duplicateFace

/-- `self._df.loc[face, 'weights'] = weight`: every row whose index equals
`face` gets the new weight (faces are unique in a well-formed die, so at most
one row changes). -/
def setWeights (faces : List α) (weights : List ℚ) (face : α) (w : ℚ) :
    List ℚ :=
  (faces.zip weights).map fun fw => if fw.1 = face then w else fw.2

/-- `Die.change_weight`: `IndexError` (spec: `UnknownFaceError`) when the face
is absent; otherwise stores the new weight for that face. The weight argument
is already numeric here, so the `float(weight)` cast succeeds and is the
identity; the non-castable branch (`TypeError`, spec `InvalidWeightError`) is
unreachable for numeric input. -/
def Die.change_weight (d : Die α) (face : α) (weight : ℚ) :
    Except Err (Die α) :=
  if face ∈ d.faces then
    .ok ⟨d.faces, setWeights d.faces d.weights face weight⟩
  else
    .error .unknownFace

/-- `Die.show`: a copy of the private DataFrame, as the face→weight
association list in face order. -/
def Die.show (d : Die α) : List (α × ℚ) := d.faces.zip d.weights

/-- One inverse-CDF draw: walk the (face, probability) list, picking the
first face whose cumulative probability exceeds the random number `r`;
models one draw of `np.random.choice(faces, p=probabilities)`. When the list
is exhausted the last face is returned (numpy always returns an index; for
`r < 1` the walk in fact stops earlier). -/
def sampleCDF : α → ℚ → List (α × ℚ) → ℚ → α
  | f, _, [], _ => f
  | f, p, (f2, p2) :: rest2, r =>
    if r < p then f else sampleCDF f2 p2 rest2 (r - p)

/-- `Die.roll`: normalizes `probabilities = weights / sum(weights)` and draws
`n` faces with replacement. A zero weight sum makes every probability NaN and
`np.random.choice` raises `ValueError`; a negative probability entry (weight
and sum of opposite signs) likewise raises; an empty face array likewise
raises. No other validation: in particular, a *negative* weight sum with all
weights nonpositive yields a valid probability vector and the draw silently
succeeds. -/
def Die.roll (d : Die α) (n : Nat) (rnd : Nat → ℚ) : Except Err (List α) :=
  if d.weights.sum = 0 then
    .error .numpyValueError
  else if (d.weights.map fun w => w / d.weights.sum).any fun p =>
      decide (p < 0) then
    .error .numpyValueError
  else
    match d.faces, d.weights.map fun w => w / d.weights.sum with
    | f :: fs, p :: ps =>
        .ok ((List.range n).map fun k => sampleCDF f p (fs.zip ps) (rnd k))
    | _, _ => .error .numpyValueError

/-- `die.roll(1)[0]` inside `Game.play`: roll once and take the first
element (Python raises `IndexError` on an empty list, which cannot happen
for a successful one-element roll). -/
def Die.rollOnce (d : Die α) (r : ℚ) : Except Err α :=
  match d.roll 1 fun _ => r with
  | .error e => .error e
  | .ok [] => .error .indexError
  | .ok (x :: _) => .ok x

/-- The outcome table `self._results`: `pd.DataFrame.from_dict(results,
orient='index')`. `rows` lists the rolls in order; `cols` records the
DataFrame's column count — the union of the inner dictionaries' keys, which
is `len(dice)` when at least one roll happened and `0` for an empty dict. -/
structure Table (α : Type) where
  rows : List (List α)
  cols : Nat
  deriving DecidableEq

/-- A game: the ordered dice list and the optional outcome table
(`self._results`, `None` until `play` is called). -/
structure Game (α : Type) where
  dice : List (Die α)
  results : Option (Table α)
  deriving DecidableEq

/-- `Game.__init__`: stores the dice, results start as `None`. -/
def Game.init (dice : List (Die α)) : Game α := ⟨dice, none⟩

/-- The inner loop of `Game.play`: roll each die once, in order; die `i`
consumes random number `r i`. First exception propagates. -/
def rollRow : List (Die α) → (Nat → ℚ) → Except Err (List α)
  | [], _ => .ok []
  | d :: ds, r =>
    match d.rollOnce (r 0), rollRow ds fun i => r (i + 1) with
    | .ok x, .ok xs => .ok (x :: xs)
    | .error e, _ => .error e
    | _, .error e => .error e

/-- The outer loop of `Game.play` over the given roll indices. -/
def playRows (dice : List (Die α)) (rnd : Nat → Nat → ℚ) :
    List Nat → Except Err (List (List α))
  | [] => .ok []
  | k :: ks =>
    match rollRow dice (rnd k), playRows dice rnd ks with
    | .ok row, .ok rest => .ok (row :: rest)
    | .error e, _ => .error e
    | _, .error e => .error e

/-- `Game.play(n_rolls)`: for each roll index in `range(n_rolls)` roll every
die once, then replace `self._results` with the fresh DataFrame. `rnd roll i`
is the random number used by die `i` on roll `roll`. -/
def Game.play (g : Game α) (n : Nat) (rnd : Nat → Nat → ℚ) :
    Except Err (Game α) :=
  match playRows g.dice rnd (List.range n) with
  | .ok rows =>
      .ok { g with results := some ⟨rows, if n = 0 then 0 else g.dice.length⟩ }
  | .error e => .error e

/-- The value `Game.show` returns on success: the wide table as stored, or
the narrow (roll, die, outcome) rows. -/
inductive ShowResult (α : Type) where
  | wide (t : Table α)
  | narrow (cells : List (Nat × Nat × α))
  deriving DecidableEq

/-- `self._results.stack()`: one (roll, die, outcome) row per cell, roll-major
then die-minor. -/
def Table.narrowRows (t : Table α) : List (Nat × Nat × α) :=
  t.rows.enum.flatMap fun ri => ri.2.enum.map fun ci => (ri.1, ci.1, ci.2)

/-- `Game.show(form)`: `None` (here `.ok none`) when never played — this
check comes *before* the form check; then the wide copy, the narrow reshape,
or `ValueError` (spec: `InvalidFormError`) for any other form string. -/
def Game.show (g : Game α) (form : String) :
    Except Err (Option (ShowResult α)) :=
  match g.results with
  | none => .ok none
  | some t =>
    if form = "wide" then .ok (some (.wide t))
    else if form = "narrow" then .ok (some (.narrow t.narrowRows))
    else .error .invalidForm

/-- An analyzer holds a reference to its game (`self._game`). -/
structure Analyzer (α : Type) where
  game : Game α
  deriving DecidableEq

/-- `Analyzer.jackpot`: fetch the wide results; `0` when never played;
otherwise count the rows whose values are all identical
(`row.nunique() == 1`). -/
def Analyzer.jackpot (a : Analyzer α) : Nat :=
  match a.game.show "wide" with
  | .ok (some (.wide t)) =>
      (t.rows.filter fun row => decide (row.dedup.length = 1)).length
  | _ => 0

/-- `Analyzer.face_counts_per_roll`: `None` when never played; otherwise the
union of every die's face set (a Python `set`, here a deduplicated list) as
columns, and for each outcome row the count of each such face in that row. -/
def Analyzer.face_counts_per_roll (a : Analyzer α) :
    Option (List α × List (List Nat)) :=
  match a.game.show "wide" with
  | .ok (some (.wide t)) =>
      let all_faces := (a.game.dice.flatMap Die.faces).dedup
      some (all_faces, t.rows.map fun row => all_faces.map fun f => row.count f)
  | _ => none

/-- `value_counts()` over a list of keys: each distinct key with its number
of occurrences (pandas orders by descending count; the claims never mention
order, so dedup order is used). -/
def valueCounts {κ : Type} [DecidableEq κ] (keys : List κ) : List (κ × Nat) :=
  keys.dedup.map fun k => (k, keys.count k)

/-- `Analyzer.combo_count`: `None` when never played; otherwise the frequency
table of `tuple(sorted(row))` over the outcome rows. -/
def Analyzer.combo_count {β : Type} [LinearOrder β] (a : Analyzer β) :
    Option (List (List β × Nat)) :=
  match a.game.show "wide" with
  | .ok (some (.wide t)) =>
      some (valueCounts (t.rows.map fun row => row.insertionSort (· ≤ ·)))
  | _ => none

/-- `Analyzer.permutation_count`: `None` when never played; otherwise the
frequency table of `tuple(row)` (unsorted) over the outcome rows. -/
def Analyzer.permutation_count {β : Type} [DecidableEq β] (a : Analyzer β) :
    Option (List (List β × Nat)) :=
  match a.game.show "wide" with
  | .ok (some (.wide t)) => some (valueCounts t.rows)
  | _ => none

/-- The dynamically-typed argument world of `Analyzer.__init__`: what matters
about a Python object passed to the constructor is whether it is an instance
of the `Game` class, and which Game-contract capabilities it exposes. -/
structure PyObject where
  isGameInstance : Bool
  hasShow : Bool
  hasOutcomeTableAccessor : Bool
  deriving DecidableEq

/-- `Analyzer.__init__`: `isinstance(game, Game)` — a literal class-tag test;
`ValueError` (spec: `InvalidArgumentError`) otherwise. -/
def Analyzer.initCheck (o : PyObject) : Except Err PyObject :=
  if o.isGameInstance then .ok o else .error .invalidArgument

/-- Modelled from the spec: the capability reading of the Game contract —
the object exposes `Show()` and an outcome-table accessor. Stated from the
spec's words for comparison with `Analyzer.initCheck`. -/
def specGameContract (o : PyObject) : Bool :=
  o.hasShow && o.hasOutcomeTableAccessor

/-! ## Basic lemmas about rolling -/

@[simp]
theorem rat_one_not_lt_zero : ¬ (1 : ℚ) < 0 := by norm_num

theorem sampleCDF_mem (f : α) (p : ℚ) (rest : List (α × ℚ)) (r : ℚ) :
    sampleCDF f p rest r ∈ f :: rest.map Prod.fst := by
  induction rest generalizing f p r with
  | nil => simp [sampleCDF]
  | cons fp rest2 ih =>
    obtain ⟨f2, p2⟩ := fp
    rw [sampleCDF]
    split
    · simp
    · have h := ih f2 p2 (r - p)
      simp only [List.map_cons, List.mem_cons] at h ⊢
      tauto

theorem Die.roll_ok {d : Die α} {n : Nat} {rnd : Nat → ℚ} {xs : List α}
    (h : d.roll n rnd = .ok xs) :
    xs.length = n ∧ ∀ x ∈ xs, x ∈ d.faces := by
  unfold Die.roll at h
  split at h
  · cases h
  · split at h
    · cases h
    · split at h
      case _ f fs p ps hfaces _ =>
        injection h with h
        subst h
        constructor
        · simp
        · intro x hx
          simp only [List.mem_map] at hx
          obtain ⟨k, _, hk⟩ := hx
          have hm := sampleCDF_mem f p (fs.zip ps) (rnd k)
          rw [hk] at hm
          rcases List.mem_cons.mp hm with h1 | h1
          · rw [hfaces, h1]; exact List.mem_cons_self _ _
          · obtain ⟨⟨a, b⟩, hab, rfl⟩ := List.mem_map.mp h1
            rw [hfaces]
            exact List.mem_cons_of_mem _ (List.of_mem_zip hab).1
      · cases h

theorem Die.rollOnce_ok {d : Die α} {r : ℚ} {x : α}
    (h : d.rollOnce r = .ok x) : x ∈ d.faces := by
  unfold Die.rollOnce at h
  split at h
  · cases h
  · cases h
  case _ y ys heq =>
    injection h with h
    subst h
    exact (Die.roll_ok heq).2 y (List.mem_cons_self _ _)

theorem rollRow_ok {ds : List (Die α)} {r : Nat → ℚ} {row : List α}
    (h : rollRow ds r = .ok row) :
    row.length = ds.length ∧
      ∀ (i : Nat) (hi : i < row.length) (hj : i < ds.length),
        row.get ⟨i, hi⟩ ∈ (ds.get ⟨i, hj⟩).faces := by
  induction ds generalizing r row with
  | nil =>
    unfold rollRow at h
    injection h with h
    subst h
    exact ⟨rfl, fun i hi => absurd hi (by simp)⟩
  | cons d ds ih =>
    unfold rollRow at h
    split at h
    case _ x xs hx hxs =>
      injection h with h
      subst h
      obtain ⟨hlen, hmem⟩ := ih hxs
      refine ⟨by simp [hlen], ?_⟩
      intro i hi hj
      match i with
      | 0 => exact Die.rollOnce_ok hx
      | i + 1 =>
        exact hmem i (Nat.lt_of_succ_lt_succ (by simpa using hi))
          (Nat.lt_of_succ_lt_succ (by simpa using hj))
    · cases h
    · cases h

theorem playRows_ok {dice : List (Die α)} {rnd : Nat → Nat → ℚ}
    {ks : List Nat} {rows : List (List α)}
    (h : playRows dice rnd ks = .ok rows) :
    rows.length = ks.length ∧
      ∀ row ∈ rows, ∃ k, rollRow dice (rnd k) = .ok row := by
  induction ks generalizing rows with
  | nil =>
    unfold playRows at h
    injection h with h
    subst h
    exact ⟨rfl, by simp⟩
  | cons k ks ih =>
    unfold playRows at h
    split at h
    case _ row rest hrow hrest =>
      injection h with h
      subst h
      obtain ⟨hlen, hmem⟩ := ih hrest
      refine ⟨by simp [hlen], ?_⟩
      intro r hr
      rcases List.mem_cons.mp hr with rfl | hr
      · exact ⟨k, hrow⟩
      · exact hmem r hr
    · cases h
    · cases h

theorem Game.play_ok {g g' : Game α} {n : Nat} {rnd : Nat → Nat → ℚ}
    (h : g.play n rnd = .ok g') :
    g'.dice = g.dice ∧
    ∃ rows : List (List α),
      g'.results = some ⟨rows, if n = 0 then 0 else g.dice.length⟩ ∧
      rows.length = n ∧
      ∀ row ∈ rows, row.length = g.dice.length ∧
        ∀ (i : Nat) (hi : i < row.length) (hj : i < g.dice.length),
          row.get ⟨i, hi⟩ ∈ (g.dice.get ⟨i, hj⟩).faces := by
  unfold Game.play at h
  split at h
  case _ rows heq =>
    injection h with h
    subst h
    obtain ⟨hlen, hmem⟩ := playRows_ok heq
    refine ⟨rfl, rows, rfl, by simpa using hlen, ?_⟩
    intro row hrow
    obtain ⟨k, hk⟩ := hmem row hrow
    exact rollRow_ok hk
  · cases h

/-- Every cell of a row of a successfully played table belongs to some die of
the game. -/
theorem Game.play_cell_mem {g g' : Game α} {n : Nat} {rnd : Nat → Nat → ℚ}
    {t : Table α} {row : List α} {x : α}
    (h : g.play n rnd = .ok g') (hres : g'.results = some t)
    (hrow : row ∈ t.rows) (hx : x ∈ row) :
    ∃ d ∈ g.dice, x ∈ d.faces := by
  obtain ⟨-, rows, hres', -, hcells⟩ := Game.play_ok h
  rw [hres'] at hres
  injection hres with hres
  subst hres
  obtain ⟨hlen, hget⟩ := hcells row hrow
  obtain ⟨⟨i, hi⟩, rfl⟩ := List.mem_iff_get.mp hx
  have hj : i < g.dice.length := by rw [← hlen]; exact hi
  exact ⟨g.dice.get ⟨i, hj⟩, List.get_mem _ _ _, hget i hi hj⟩

/-- `Game.show("wide")` of a never-played game is the absent value. -/
theorem Game.show_wide_none {g : Game α} (h : g.results = none) :
    g.show "wide" = .ok none := by
  unfold Game.show
  rw [h]

/-- `Game.show("wide")` of a played game is the stored table. -/
theorem Game.show_wide_some {g : Game α} {t : Table α}
    (h : g.results = some t) : g.show "wide" = .ok (some (.wide t)) := by
  unfold Game.show
  rw [h]
  simp

/-! ## Counting lemmas -/

theorem sum_map_indicator (a : α) (cols : List α) :
    (cols.map fun f => if f = a then (1 : Nat) else 0).sum = cols.count a := by
  induction cols with
  | nil => simp
  | cons c cs ih =>
    simp only [List.map_cons, List.sum_cons, List.count_cons, ih]
    by_cases h : c = a
    · subst h; simp [Nat.add_comm]
    · simp [h, Ne.symm h]

/-- Summing, over a duplicate-free list of column labels, the per-column
occurrence counts of a row whose cells all carry a label, recovers the row
length. -/
theorem sum_counts_eq_length {cols : List α} (hnd : cols.Nodup) :
    ∀ row : List α, (∀ x ∈ row, x ∈ cols) →
      (cols.map fun f => row.count f).sum = row.length := by
  intro row
  induction row with
  | nil => intro _; simp
  | cons a r ih =>
    intro hsub
    have ha : a ∈ cols := hsub a (List.mem_cons_self _ _)
    have hr : ∀ x ∈ r, x ∈ cols := fun x hx =>
      hsub x (List.mem_cons_of_mem _ hx)
    have step : (cols.map fun f => (a :: r).count f)
        = cols.map fun f => r.count f + if f = a then 1 else 0 := by
      refine List.map_congr_left fun f _ => ?_
      rw [List.count_cons]
      by_cases h : f = a
      · simp [h]
      · simp [h, Ne.symm h]
    rw [step, List.sum_map_add, ih hr, sum_map_indicator,
      List.count_eq_one_of_mem hnd ha]
    simp [Nat.add_comm]

/-- The counts of a `value_counts` table sum to the number of keys. -/
theorem valueCounts_sum {κ : Type} [DecidableEq κ] (keys : List κ) :
    ((valueCounts keys).map Prod.snd).sum = keys.length := by
  unfold valueCounts
  rw [List.map_map]
  exact List.sum_map_count_dedup_eq_length keys

/-- Mapping a function over a list cannot increase the number of distinct
elements. -/
theorem dedup_map_length_le {κ : Type} [DecidableEq κ] (f : α → κ)
    (l : List α) : ((l.map f).dedup).length ≤ l.dedup.length := by
  induction l with
  | nil => simp
  | cons a t ih =>
    by_cases h : a ∈ t
    · have hf : f a ∈ t.map f := List.mem_map_of_mem f h
      simp only [List.map_cons, List.dedup_cons_of_mem h,
        List.dedup_cons_of_mem hf]
      exact ih
    · simp only [List.map_cons, List.dedup_cons_of_not_mem h]
      by_cases hf : f a ∈ t.map f
      · rw [List.dedup_cons_of_mem hf]
        exact Nat.le_succ_of_le ih
      · rw [List.dedup_cons_of_not_mem hf]
        simpa using ih

/-! ## Weight-update lemmas -/

theorem lookup_cons_self {β : Type} (a : α) (v : β) (l : List (α × β)) :
    List.lookup a ((a, v) :: l) = some v := by
  simp [List.lookup]

theorem lookup_cons_ne {β : Type} {a k : α} (h : a ≠ k) (v : β)
    (l : List (α × β)) :
    List.lookup a ((k, v) :: l) = List.lookup a l := by
  have hb : (a == k) = false := beq_eq_false_iff_ne.mpr h
  simp [List.lookup, hb]

theorem lookup_setWeights_self (face : α) (w : ℚ) :
    ∀ (faces : List α) (weights : List ℚ), weights.length = faces.length →
      face ∈ faces →
      (faces.zip (setWeights faces weights face w)).lookup face = some w := by
  intro faces
  induction faces with
  | nil => intro _ _ h; cases h
  | cons f fs ih =>
    intro weights hlen hmem
    cases weights with
    | nil => simp at hlen
    | cons wt ws =>
      have hsw : setWeights (f :: fs) (wt :: ws) face w
          = (if f = face then w else wt) :: setWeights fs ws face w := rfl
      rw [hsw, List.zip_cons_cons]
      by_cases hf : face = f
      · subst hf
        rw [if_pos rfl]
        exact lookup_cons_self face w _
      · have hmem' : face ∈ fs := by
          rcases List.mem_cons.mp hmem with h | h
          · exact absurd h hf
          · exact h
        rw [lookup_cons_ne hf]
        exact ih ws (by simpa using hlen) hmem'

theorem lookup_setWeights_other (face g : α) (hg : g ≠ face) (w : ℚ) :
    ∀ (faces : List α) (weights : List ℚ),
      (faces.zip (setWeights faces weights face w)).lookup g =
        (faces.zip weights).lookup g := by
  intro faces
  induction faces with
  | nil => intro weights; simp [setWeights]
  | cons f fs ih =>
    intro weights
    cases weights with
    | nil => simp [setWeights]
    | cons wt ws =>
      have hsw : setWeights (f :: fs) (wt :: ws) face w
          = (if f = face then w else wt) :: setWeights fs ws face w := rfl
      rw [hsw, List.zip_cons_cons, List.zip_cons_cons]
      by_cases hgf : g = f
      · subst hgf
        rw [if_neg fun hface => hg hface]
        rw [lookup_cons_self, lookup_cons_self]
      · rw [lookup_cons_ne hgf, lookup_cons_ne hgf]
        exact ih ws

/-! ## The claims -/

/-- C1 (code bug): the source's `Die.roll` performs no weight-sum validation.
With weights `[-1, -1]` (sum `-2 < 0`) the normalization yields probabilities
`[1/2, 1/2]` and the roll *silently succeeds*; with weight sum `0` the
division by zero produces NaN probabilities and numpy raises its generic
`ValueError`. Neither degenerate case fails with the spec-mandated
`InvalidWeightError`. -/
theorem c1_roll_degenerate_sum_not_invalid_weight :
    (Die.mk [(1 : ℤ), 2] [-1, -1]).roll 1 (fun _ => 0) = .ok [1] ∧
    (Die.mk [(1 : ℤ)] [0]).roll 1 (fun _ => 0) = .error .numpyValueError ∧
    Err.numpyValueError ≠ Err.invalidWeight := by
  refine ⟨?_, ?_, by decide⟩
  · norm_num [Die.roll, sampleCDF, List.range_succ]
  · norm_num [Die.roll]

/-- C8: for every die with a distinct non-empty face set and nonnegative
weights of positive sum, `Die.roll n` succeeds with an ordered sequence of
exactly `n` values, each drawn from the face set. -/
theorem c8_roll_length_mem (d : Die α) (n : Nat) (rnd : Nat → ℚ)
    (hne : d.faces ≠ []) (hnd : d.faces.Nodup)
    (hw : ∀ w ∈ d.weights, 0 ≤ w) (hs : 0 < d.weights.sum) :
    ∃ xs : List α, d.roll n rnd = .ok xs ∧ xs.length = n ∧
      ∀ x ∈ xs, x ∈ d.faces := by
  have hS : d.weights.sum ≠ 0 := ne_of_gt hs
  have hany : ((d.weights.map fun w => w / d.weights.sum).any fun p =>
      decide (p < 0)) = false := by
    rw [List.any_eq_false]
    intro p hp
    simp only [List.mem_map] at hp
    obtain ⟨w, hw', rfl⟩ := hp
    simpa using not_lt.mpr (div_nonneg (hw w hw') (le_of_lt hs))
  obtain ⟨f, fs, hfaces⟩ := List.exists_cons_of_ne_nil hne
  have hwne : d.weights ≠ [] := by
    intro h0
    rw [h0] at hs
    simp at hs
  obtain ⟨w, ws, hweights⟩ := List.exists_cons_of_ne_nil hwne
  have hok : ∃ xs, d.roll n rnd = .ok xs := by
    unfold Die.roll
    rw [if_neg hS, hany]
    rw [hfaces, hweights]
    simp only [List.map_cons, Bool.false_eq_true, if_false]
    exact ⟨_, rfl⟩
  obtain ⟨xs, hxs⟩ := hok
  obtain ⟨h1, h2⟩ := Die.roll_ok hxs
  exact ⟨xs, hxs, h1, h2⟩

/-- Witness for C8 at a concrete one-faced fair die rolled three times. -/
theorem c8_roll_length_mem_witness :
    ∃ xs : List ℤ,
      (Die.mk [(1 : ℤ)] [1]).roll 3 (fun _ => 0) = .ok xs ∧
      xs.length = 3 ∧ ∀ x ∈ xs, x ∈ (Die.mk [(1 : ℤ)] [1]).faces :=
  c8_roll_length_mem (Die.mk [(1 : ℤ)] [1]) 3 (fun _ => 0)
    (by decide) (by decide) (by simp) (by simp)

/-- C9: for an existing face and a numeric weight, `change_weight` succeeds,
the stored weight of that face becomes the new weight, and every other
face's stored weight is unchanged (no normalization at assignment time). -/
theorem c9_change_weight_frame (d : Die α) (face : α) (w : ℚ)
    (hlen : d.weights.length = d.faces.length) (hmem : face ∈ d.faces) :
    ∃ d' : Die α, d.change_weight face w = .ok d' ∧
      d'.show.lookup face = some w ∧
      ∀ g : α, g ≠ face → d'.show.lookup g = d.show.lookup g := by
  refine ⟨⟨d.faces, setWeights d.faces d.weights face w⟩, ?_, ?_, ?_⟩
  · unfold Die.change_weight
    rw [if_pos hmem]
  · exact lookup_setWeights_self face w d.faces d.weights hlen hmem
  · intro g hg
    exact lookup_setWeights_other face g hg w d.faces d.weights

/-- Witness for C9: set the weight of face `1` of a fair two-faced die to
`5`. -/
theorem c9_change_weight_frame_witness :
    ∃ d' : Die ℤ,
      (Die.mk [(1 : ℤ), 2] [1, 1]).change_weight 1 5 = .ok d' ∧
      d'.show.lookup 1 = some 5 ∧
      ∀ g : ℤ, g ≠ 1 →
        d'.show.lookup g = (Die.mk [(1 : ℤ), 2] [1, 1]).show.lookup g :=
  c9_change_weight_frame (Die.mk [(1 : ℤ), 2] [1, 1]) 1 5
    (by decide) (by decide)

/-- C2 counterexample: an object that satisfies the Game contract by
capability (it exposes `Show()` and an outcome-table accessor) but is not an
instance of the `Game` class is rejected by the constructor with
`InvalidArgumentError`, refuting "any object satisfying the Game contract is
accepted". -/
theorem c2_capability_object_rejected :
    specGameContract ⟨false, true, true⟩ = true ∧
    Analyzer.initCheck ⟨false, true, true⟩ = .error .invalidArgument := by
  decide

/-- C2 amended: `Analyzer` construction fails with `InvalidArgumentError`
exactly when the argument is not an instance of the `Game` class — a literal
`isinstance` type-tag check, not a capability check. -/
theorem c2_init_isinstance (o : PyObject) :
    Analyzer.initCheck o = .error .invalidArgument ↔
      o.isGameInstance = false := by
  unfold Analyzer.initCheck
  cases o with
  | mk g s t => cases g <;> simp

/-- C3 counterexample: playing `0` rolls with one die stores an outcome
table with `0` columns, not `len(dice) = 1` columns
(`pd.DataFrame.from_dict({}, orient='index')` has no columns). -/
theorem c3_play_zero_has_no_columns :
    (Game.mk [Die.mk [(1 : ℤ)] [1]] none).play 0 (fun _ _ => 0) =
      .ok (Game.mk [Die.mk [(1 : ℤ)] [1]] (some ⟨[], 0⟩)) ∧
    (Table.mk ([] : List (List ℤ)) 0).cols = 0 ∧
    [Die.mk [(1 : ℤ)] [1]].length = 1 ∧ (0 : Nat) ≠ 1 := by
  exact ⟨rfl, rfl, rfl, by decide⟩

/-- C3 amended: after a successful `play(n)` the outcome table has exactly
`n` rows, each row has `len(dice)` cells, every cell drawn from the
corresponding die's face set; the table has `len(dice)` columns when
`n ≥ 1`, but `0` columns when `n = 0`. -/
theorem c3_play_shape (g g' : Game α) (n : Nat) (rnd : Nat → Nat → ℚ)
    (h : g.play n rnd = .ok g') :
    ∃ t : Table α, g'.results = some t ∧ t.rows.length = n ∧
      (n ≠ 0 → t.cols = g.dice.length) ∧ (n = 0 → t.cols = 0) ∧
      ∀ row ∈ t.rows, row.length = g.dice.length ∧
        ∀ (i : Nat) (hi : i < row.length) (hj : i < g.dice.length),
          row.get ⟨i, hi⟩ ∈ (g.dice.get ⟨i, hj⟩).faces := by
  obtain ⟨-, rows, hres, hlen, hcells⟩ := Game.play_ok h
  refine ⟨_, hres, hlen, ?_, ?_, hcells⟩
  · intro hn
    simp [hn]
  · intro hn
    simp [hn]

/-- Witness for C3 (amended) at a one-die game played twice. -/
theorem c3_play_shape_witness :
    ∃ t : Table ℤ,
      (Game.mk [Die.mk [(5 : ℤ)] [1]] (some ⟨[[5], [5]], 1⟩)).results
        = some t ∧
      t.rows.length = 2 ∧
      (2 ≠ 0 → t.cols = (Game.mk [Die.mk [(5 : ℤ)] [1]] none).dice.length) ∧
      ((2 : Nat) = 0 → t.cols = 0) ∧
      ∀ row ∈ t.rows,
        row.length = (Game.mk [Die.mk [(5 : ℤ)] [1]] none).dice.length ∧
        ∀ (i : Nat) (hi : i < row.length)
          (hj : i < (Game.mk [Die.mk [(5 : ℤ)] [1]] none).dice.length),
          row.get ⟨i, hi⟩ ∈
            ((Game.mk [Die.mk [(5 : ℤ)] [1]] none).dice.get ⟨i, hj⟩).faces :=
  c3_play_shape (Game.mk [Die.mk [(5 : ℤ)] [1]] none)
    (Game.mk [Die.mk [(5 : ℤ)] [1]] (some ⟨[[5], [5]], 1⟩)) 2 (fun _ _ => 0)
    (by simp [Game.play, playRows, rollRow, Die.rollOnce, Die.roll,
      sampleCDF, List.range_succ])

/-- C4 counterexample: on a never-played game, `Game.show` checks
`self._results is None` *before* validating the form, so an invalid form
string returns the absent value `None` instead of failing with
`InvalidFormError`. -/
theorem c4_unplayed_invalid_form_returns_none :
    (Game.mk [Die.mk [(1 : ℤ)] [1]] none).show "diagonal" = .ok none ∧
    (Except.ok (none : Option (ShowResult ℤ)) : Except Err _)
      ≠ .error .invalidForm := by
  exact ⟨rfl, by decide⟩

/-- C4 amended: on a *played* game any form other than `"wide"`/`"narrow"`
fails with `InvalidFormError`; a never-played game returns the absent
"no data" value for *every* form string (valid or not), never an error. -/
theorem c4_show_form (g : Game α) (t : Table α) (form : String)
    (hp : g.results = some t) (h1 : form ≠ "wide") (h2 : form ≠ "narrow") :
    g.show form = .error .invalidForm ∧
    ∀ g2 : Game α, g2.results = none → ∀ f : String, g2.show f = .ok none := by
  constructor
  · unfold Game.show
    rw [hp]
    simp [h1, h2]
  · intro g2 hg2 f
    unfold Game.show
    rw [hg2]

/-- Witness for C4 (amended) at a played one-die game and the form
`"diagonal"`. -/
theorem c4_show_form_witness :
    (Game.mk [Die.mk [(1 : ℤ)] [1]] (some ⟨[[1]], 1⟩)).show "diagonal"
      = .error .invalidForm ∧
    ∀ g2 : Game ℤ, g2.results = none →
      ∀ f : String, g2.show f = .ok none :=
  c4_show_form (Game.mk [Die.mk [(1 : ℤ)] [1]] (some ⟨[[1]], 1⟩))
    ⟨[[1]], 1⟩ "diagonal" rfl (by decide) (by decide)

/-- C5: on a successfully played game, `face_counts_per_roll` returns one
row of counts per roll, its columns are exactly the union of every die's
face set (not only observed faces), and every row of counts sums to
`len(dice)`. -/
theorem c5_face_counts (g g' : Game α) (n : Nat) (rnd : Nat → Nat → ℚ)
    (h : g.play n rnd = .ok g') :
    ∃ (cols : List α) (mat : List (List Nat)),
      (Analyzer.mk g').face_counts_per_roll = some (cols, mat) ∧
      (∀ f : α, f ∈ cols ↔ ∃ d ∈ g'.dice, f ∈ d.faces) ∧
      mat.length = n ∧
      ∀ counts ∈ mat, counts.sum = g'.dice.length := by
  obtain ⟨hdice, rows, hres, hlen, hcells⟩ := Game.play_ok h
  have hg : (Analyzer.mk g').game = g' := rfl
  have hshow := Game.show_wide_some hres
  refine ⟨(g'.dice.flatMap Die.faces).dedup,
    rows.map fun row =>
      ((g'.dice.flatMap Die.faces).dedup).map fun f => row.count f,
    ?_, ?_, ?_, ?_⟩
  · unfold Analyzer.face_counts_per_roll
    rw [hg, hshow]
  · intro f
    simp only [List.mem_dedup, List.mem_flatMap]
  · simp [hlen]
  · intro counts hc
    obtain ⟨row, hrow, rfl⟩ := List.mem_map.mp hc
    have hsub : ∀ x ∈ row, x ∈ (g'.dice.flatMap Die.faces).dedup := by
      intro x hx
      obtain ⟨d, hd, hfx⟩ := Game.play_cell_mem h hres hrow hx
      rw [hdice]
      exact List.mem_dedup.mpr (List.mem_flatMap.mpr ⟨d, hd, hfx⟩)
    rw [sum_counts_eq_length (List.nodup_dedup _) row hsub,
      (hcells row hrow).1, hdice]

/-- Witness for C5 at a one-die game played twice. -/
theorem c5_face_counts_witness :
    ∃ (cols : List ℤ) (mat : List (List Nat)),
      (Analyzer.mk (Game.mk [Die.mk [(5 : ℤ)] [1]]
          (some ⟨[[5], [5]], 1⟩))).face_counts_per_roll = some (cols, mat) ∧
      (∀ f : ℤ, f ∈ cols ↔
        ∃ d ∈ (Game.mk [Die.mk [(5 : ℤ)] [1]]
          (some ⟨[[5], [5]], 1⟩)).dice, f ∈ d.faces) ∧
      mat.length = 2 ∧
      ∀ counts ∈ mat,
        counts.sum = (Game.mk [Die.mk [(5 : ℤ)] [1]]
          (some ⟨[[5], [5]], 1⟩)).dice.length :=
  c5_face_counts (Game.mk [Die.mk [(5 : ℤ)] [1]] none)
    (Game.mk [Die.mk [(5 : ℤ)] [1]] (some ⟨[[5], [5]], 1⟩)) 2 (fun _ _ => 0)
    (by simp [Game.play, playRows, rollRow, Die.rollOnce, Die.roll,
      sampleCDF, List.range_succ])

/-- C6: on a game successfully played with `n` rolls, the counts of
`combo_count` sum to `n` and the counts of `permutation_count` sum to
`n`. -/
theorem c6_counts_sum {β : Type} [LinearOrder β] (g g' : Game β) (n : Nat)
    (rnd : Nat → Nat → ℚ) (h : g.play n rnd = .ok g') :
    ∃ c p : List (List β × Nat),
      (Analyzer.mk g').combo_count = some c ∧
      (Analyzer.mk g').permutation_count = some p ∧
      (c.map Prod.snd).sum = n ∧ (p.map Prod.snd).sum = n := by
  obtain ⟨hdice, rows, hres, hlen, -⟩ := Game.play_ok h
  have hg : (Analyzer.mk g').game = g' := rfl
  have hshow := Game.show_wide_some hres
  refine ⟨valueCounts (rows.map fun row => row.insertionSort (· ≤ ·)),
    valueCounts rows, ?_, ?_, ?_, ?_⟩
  · unfold Analyzer.combo_count
    rw [hg, hshow]
  · unfold Analyzer.permutation_count
    rw [hg, hshow]
  · rw [valueCounts_sum]
    simp [hlen]
  · rw [valueCounts_sum, hlen]

/-- Witness for C6 at a one-die game played twice. -/
theorem c6_counts_sum_witness :
    ∃ c p : List (List ℤ × Nat),
      (Analyzer.mk (Game.mk [Die.mk [(7 : ℤ)] [1]]
          (some ⟨[[7], [7]], 1⟩))).combo_count = some c ∧
      (Analyzer.mk (Game.mk [Die.mk [(7 : ℤ)] [1]]
          (some ⟨[[7], [7]], 1⟩))).permutation_count = some p ∧
      (c.map Prod.snd).sum = 2 ∧ (p.map Prod.snd).sum = 2 :=
  c6_counts_sum (Game.mk [Die.mk [(7 : ℤ)] [1]] none)
    (Game.mk [Die.mk [(7 : ℤ)] [1]] (some ⟨[[7], [7]], 1⟩)) 2 (fun _ _ => 0)
    (by simp [Game.play, playRows, rollRow, Die.rollOnce, Die.roll,
      sampleCDF, List.range_succ])

/-- C7: whenever `combo_count` and `permutation_count` both return tables
(the game has been played), the permutation table has at least as many
distinct keys as the combination table. -/
theorem c7_perm_keys_ge_combo_keys {β : Type} [LinearOrder β] (g : Game β)
    (c p : List (List β × Nat))
    (hc : (Analyzer.mk g).combo_count = some c)
    (hp : (Analyzer.mk g).permutation_count = some p) :
    c.length ≤ p.length := by
  have hg : (Analyzer.mk g).game = g := rfl
  unfold Analyzer.combo_count at hc
  unfold Analyzer.permutation_count at hp
  rw [hg] at hc hp
  cases hres : g.results with
  | none =>
    rw [Game.show_wide_none hres] at hc
    simp at hc
  | some t =>
    rw [Game.show_wide_some hres] at hc hp
    simp only [Option.some.injEq] at hc hp
    subst hc
    subst hp
    unfold valueCounts
    simp only [List.length_map]
    exact dedup_map_length_le _ _

/-- Witness for C7 on a stored table whose two rows are the two orderings of
the same pair. -/
theorem c7_perm_keys_ge_combo_keys_witness :
    ([([1, 2], 2)] : List (List ℤ × Nat)).length ≤
      ([([1, 2], 1), ([2, 1], 1)] : List (List ℤ × Nat)).length :=
  c7_perm_keys_ge_combo_keys
    (Game.mk ([] : List (Die ℤ)) (some ⟨[[1, 2], [2, 1]], 2⟩))
    [([1, 2], 2)] [([1, 2], 1), ([2, 1], 1)] (by decide) (by decide)

/-- C10: `play(0)` succeeds and stores an *empty table* (`some ⟨[], 0⟩`),
which is a state distinct from the never-played `none`: `show("wide")`
returns the empty table rather than the absent value, and
`Analyzer.jackpot` returns `0`. -/
theorem c10_play_zero_distinct_state (g : Game α) (rnd : Nat → Nat → ℚ) :
    g.play 0 rnd = .ok { g with results := some ⟨[], 0⟩ } ∧
    Game.show { g with results := some (⟨[], 0⟩ : Table α) } "wide"
      = .ok (some (.wide ⟨[], 0⟩)) ∧
    Analyzer.jackpot ⟨{ g with results := some (⟨[], 0⟩ : Table α) }⟩ = 0 ∧
    Game.show { g with results := (none : Option (Table α)) } "wide"
      = .ok none ∧
    (Except.ok (some (ShowResult.wide (⟨[], 0⟩ : Table α)))
      : Except Err (Option (ShowResult α))) ≠ .ok none := by
  refine ⟨rfl, Game.show_wide_some rfl, ?_, rfl, by simp⟩
  unfold Analyzer.jackpot
  rw [show (Analyzer.mk { g with results := some (⟨[], 0⟩ : Table α) }).game
      = { g with results := some (⟨[], 0⟩ : Table α) } from rfl,
    Game.show_wide_some rfl]
  rfl

/-- Witness for C10 at an empty never-played game. -/
theorem c10_play_zero_distinct_state_witness :
    (Game.mk ([] : List (Die ℤ)) none).play 0 (fun _ _ => 0)
      = .ok { Game.mk ([] : List (Die ℤ)) none with results := some ⟨[], 0⟩ } ∧
    Game.show { Game.mk ([] : List (Die ℤ)) none with
        results := some (⟨[], 0⟩ : Table ℤ) } "wide"
      = .ok (some (.wide ⟨[], 0⟩)) ∧
    Analyzer.jackpot ⟨{ Game.mk ([] : List (Die ℤ)) none with
        results := some (⟨[], 0⟩ : Table ℤ) }⟩ = 0 ∧
    Game.show { Game.mk ([] : List (Die ℤ)) none with
        results := (none : Option (Table ℤ)) } "wide" = .ok none ∧
    (Except.ok (some (ShowResult.wide (⟨[], 0⟩ : Table ℤ)))
      : Except Err (Option (ShowResult ℤ))) ≠ .ok none :=
  c10_play_zero_distinct_state (Game.mk ([] : List (Die ℤ)) none)
    (fun _ _ => 0)

/-- Witness for C2 (amended) at a genuine `Game` instance. -/
theorem c2_init_isinstance_witness :
    Analyzer.initCheck ⟨true, true, true⟩ = .error .invalidArgument ↔
      (true : Bool) = false :=
  c2_init_isinstance ⟨true, true, true⟩

end MonteCarlo
